import Mathlib

/-!
Verification development for the Slurm singularity execution driver
(`prov/slurm/execution_singularity.go`): operation dispatch, container
image URI resolution, batch/interactive command composition, scheduler
output parsing, and monitoring-handle construction.

The Go code is shallowly embedded: each stateful method becomes a pure
function over an explicit environment (`ExecEnv`) bundling the request
data with the external capabilities (remote transport, deployment
metadata store, and the generic job builder defined outside this file's
sources).  Every remote command execution is recorded in a trace, so
"zero transport calls" is a statement about the trace being empty.
-/

namespace YorcSlurm

/-- Named environment input (name/value pair) fed to the operation,
mirroring the Go `EnvInput` entries of `e.EnvInputs`. -/
structure EnvInput where
  name : String
  value : String
deriving Repr, DecidableEq

/-- Operation identity: the operation name and the node template that
implements it, the two fields of `e.operation` this code reads. -/
structure Operation where
  name : String
  implementedInNodeTemplate : String
deriving Repr, DecidableEq

/-- Job information mirroring the Go `jobInfo` record: batch-mode flag,
job identifier, monitoring interval, environment inputs, expected
outputs, extra execution arguments and raw scheduler options.  Go map
iteration order over `inputs` is modelled as the list order. -/
structure JobInfo where
  id : String
  batchMode : Bool
  monitoringTimeInterval : Nat
  inputs : List (String × String)
  outputs : List String
  execArgs : List String
  opts : List String
deriving Repr, DecidableEq

/-- Singularity information mirroring the Go `singularityInfo` record;
all fields start as the Go zero value `""`. -/
structure SingularityInfo where
  command : String
  exec : String
  imageName : String
  imageURI : String
deriving Repr, DecidableEq

/-- Modelled from the spec: `buildJobMonitoringAction` (defined in the
slurm package outside the provided sources) packages deployment and job
identity into the monitoring handle consumed by the external poller. -/
structure MonitoringAction where
  deploymentID : String
  jobID : String
deriving Repr, DecidableEq

/-- Modelled from the spec: canonical public container-hub registry URL,
the constant `deployments.DockerHubURL` declared outside the provided
sources.  Only equality against it matters here. -/
def DockerHubURL : String := "https://hub.docker.com/"

/-- Modelled from the spec: canonical public singularity-hub registry
URL, the constant `deployments.SingularityHubURL` declared outside the
provided sources.  Only equality against it matters here. -/
def SingularityHubURL : String := "https://singularity-hub.org/"

/-- Go `strings.ToLower` restricted to ASCII case folding, the range
relevant to the operation-name literals compared here. -/
def lowerString (s : String) : String :=
  ⟨s.data.map Char.toLower⟩

/-- Go `strings.HasPrefix`. -/
def hasPrefixStr (pre s : String) : Bool :=
  pre.data.isPrefixOf s.data

/-- Go `strings.HasSuffix`. -/
def hasSuffixStr (suf s : String) : Bool :=
  suf.data.isSuffixOf s.data

/-- Characters before the first occurrence of the separator sequence
(all of them when the separator does not occur). -/
def takeUntilSeq (sep : List Char) : List Char → List Char
  | [] => []
  | c :: rest =>
    if sep.isPrefixOf (c :: rest) then [] else c :: takeUntilSeq sep rest

/-- Whether the separator sequence occurs somewhere in the list. -/
def containsSeq (sep : List Char) : List Char → Bool
  | [] => sep.isEmpty
  | c :: rest => sep.isPrefixOf (c :: rest) || containsSeq sep rest

/-- Characters after the first occurrence of the separator sequence
(none when the separator does not occur). -/
def afterSeq (sep : List Char) : List Char → List Char
  | [] => []
  | c :: rest =>
    if sep.isPrefixOf (c :: rest) then (c :: rest).drop sep.length
    else afterSeq sep rest

/-- Element 1 of Go `strings.Split s sep` under the guard — established
by the caller — that the nonempty `sep` is a prefix of `s`: the
characters between that leading occurrence of `sep` and its next
occurrence (or the end of `s`). -/
def splitSecond (sep s : String) : String :=
  ⟨takeUntilSeq sep.data (s.data.drop sep.data.length)⟩

/-- Go `strings.Trim`: removes from both ends of `s` every leading and
trailing character contained in `cutset`.  With an empty cutset nothing
is removed. -/
def goTrim (s : String) (cutset : String) : String :=
  ⟨((s.data.dropWhile fun c => cutset.data.contains c).reverse.dropWhile
      fun c => cutset.data.contains c).reverse⟩

/-- Whitespace-trimming of a string at both ends (Go `strings.TrimSpace`
restricted to its observable effect), used to state that commands are
handed to the transport with no leading or trailing whitespace. -/
def trimWS (s : String) : String :=
  ⟨((s.data.dropWhile Char.isWhitespace).reverse.dropWhile Char.isWhitespace).reverse⟩

/-- Accumulator-style splitting of a character list into maximal runs of
non-whitespace characters, the recursion behind `goFields`. -/
def fieldsAux : List Char → List Char → List (List Char)
  | [], acc => if acc = [] then [] else [acc.reverse]
  | c :: rest, acc =>
    if c.isWhitespace then
      if acc = [] then fieldsAux rest [] else acc.reverse :: fieldsAux rest []
    else fieldsAux rest (c :: acc)

/-- Go `strings.Fields`: the whitespace-delimited tokens of `s`, empty
runs dropped. -/
def goFields (s : String) : List String :=
  (fieldsAux s.data []).map fun cs => ⟨cs⟩

/-- Modelled from the spec: `parseJobIDFromBatchOutput` (defined in the
slurm package's `execution.go`, outside the provided sources) extracts
the job identifier as the final whitespace-delimited token of the
scheduler's submission acknowledgment and fails when no token can be
extracted. -/
def parseJobIDFromBatchOutput (out : String) : Except String String :=
  match (goFields out).getLast? with
  | some tok => .ok tok
  | none => .error ("Failed to parse job identifier from submission output: " ++ out)

/-- Splitting a character list at every slash; always returns at least
one (possibly empty) segment, like Go `strings.Split` on `"/"`. -/
def splitOnSlash : List Char → List (List Char)
  | [] => [[]]
  | c :: rest =>
    if c = '/' then [] :: splitOnSlash rest
    else
      match splitOnSlash rest with
      | s :: ss => (c :: s) :: ss
      | [] => [[c]]

/-- Interleaving a slash between segments, the inverse of
`splitOnSlash`. -/
def joinSlash : List (List Char) → List Char
  | [] => []
  | [s] => s
  | s :: ss => s ++ '/' :: joinSlash ss

/-- One step of Go `path.Clean`'s segment processing: empty and `.`
segments are dropped, `..` pops the last kept segment (absorbed at the
root when rooted, kept when nothing can be popped otherwise), any other
segment is kept. -/
def cleanStep (rooted : Bool) (acc : List (List Char)) (seg : List Char) : List (List Char) :=
  if seg = [] ∨ seg = ['.'] then acc
  else if seg = ['.', '.'] then
    if rooted then acc.dropLast
    else
      match acc.getLast? with
      | some l => if l = ['.', '.'] then acc ++ [seg] else acc.dropLast
      | none => [seg]
  else acc ++ [seg]

/-- Go `path.Clean` on a character list, via the standard segment-stack
formulation: split at slashes, process the segments, rejoin; an empty
result is `"."` (or `"/"` when rooted). -/
def goCleanChars (cs : List Char) : List Char :=
  if cs = [] then ['.']
  else
    let rooted := decide (cs.head? = some '/')
    let out := joinSlash ((splitOnSlash cs).foldl (cleanStep rooted) [])
    if rooted then '/' :: out
    else if out = [] then ['.'] else out

/-- Go `path.Clean` on strings. -/
def goClean (s : String) : String :=
  ⟨goCleanChars s.data⟩

/-- Go `path.Join` restricted to two elements, as used by
`buildImageURI`: leading empty elements are skipped and the slash-joined
result is cleaned; two empty elements join to the empty string. -/
def goPathJoin (a b : String) : String :=
  if a = "" ∧ b = "" then ""
  else if a = "" then goClean b
  else goClean (a ++ "/" ++ b)

/-- Modelled from Go `net/url.Parse` (standard library, outside the
provided sources), restricted to the `Host` component, which is all
`buildImageURI` reads: the host is the authority between `"//"` and the
next slash, question mark or hash; a URL with no `"//"` has an empty
host; URLs holding an ASCII control character, or a space in the host,
fail to parse. -/
def urlParseHost (s : String) : Except String String :=
  if s.data.any fun c => c.toNat < 32 ∨ c.toNat = 127 then
    .error ("parse " ++ s ++ ": net/url: invalid control character in URL")
  else
    let notHostEnd := fun c => ¬(c = '/' ∨ c = '?' ∨ c = '#')
    let host : List Char :=
      if containsSeq "://".data s.data then
        (afterSeq "://".data s.data).takeWhile notHostEnd
      else if "//".data.isPrefixOf s.data then
        (s.data.drop 2).takeWhile notHostEnd
      else []
    if host.contains ' ' then
      .error ("parse " ++ s ++ ": invalid character \" \" in host name")
    else .ok ⟨host⟩

/-- Execution environment of one dispatch: the request data held on the
Go receiver (`operation`, `EnvInputs`, `Primary`, `NodeType`,
`OperationRemoteBaseDir`, `deploymentID`) together with the external
capabilities — the remote transport `RunCommand` (returning output and
an optional error), the deployment metadata lookups, and values produced
by helpers defined outside the provided sources: `buildJobInfo`,
`fillJobCommandOpts`, `parseOutputConfigFromOpts`,
`stringutil.UniqueTimestampedName` and `retrieveJobID`.  Per the spec
the interactive job-identifier retrieval is a separate out-of-scope
lookup, so `retrieveJobID` performs no transport call of this core. -/
structure ExecEnv where
  operation : Operation
  envInputs : List EnvInput
  primary : String
  nodeType : String
  operationRemoteBaseDir : String
  deploymentID : String
  runCommand : String → String × Option String
  getOperationImplementationRepository : Except String String
  getRepositoryURLFromName : String → Except String String
  buildJobInfo : Except String JobInfo
  fillJobCommandOpts : String
  parseOutputConfigFromOpts : List String → List String
  uniqueTimestampedName : String
  retrieveJobID : JobInfo → Except String JobInfo

/-- Shell export statements rendered from the environment inputs, one
`export k=v;` per input in iteration order, as accumulated by the loops
of `runBatchMode` and `runInteractiveMode`. -/
def exportsString (inputs : List (String × String)) : String :=
  inputs.foldl (fun acc kv => acc ++ "export " ++ kv.1 ++ "=" ++ kv.2 ++ ";") ""

/-- Embedding of `buildImageURI`: fetch the repository name declared on
the operation's implementation artifact; an empty name keeps the raw
image name.  Otherwise fetch the repository URL: the two public default
registries and the empty URL keep the raw name; any other URL is parsed
and its host joined (Go `path.Join`) with the portion of the image name
after the class prefix (`strings.Split` on the prefix, element 1 — the
guard that the prefix occurs makes at least two elements, where Go would
otherwise panic). -/
def buildImageURI (env : ExecEnv) (si : SingularityInfo) (pre : String) :
    Except String SingularityInfo :=
  match env.getOperationImplementationRepository with
  | .error e => .error e
  | .ok repoName =>
    if repoName = "" then .ok { si with imageURI := si.imageName }
    else
      match env.getRepositoryURLFromName repoName with
      | .error e => .error e
      | .ok repoURL =>
        if repoURL = DockerHubURL ∨ repoURL = SingularityHubURL then
          .ok { si with imageURI := si.imageName }
        else if repoURL ≠ "" then
          match urlParseHost repoURL with
          | .error e => .error e
          | .ok host =>
            .ok { si with imageURI := pre ++ goPathJoin host (splitSecond pre si.imageName) }
        else .ok { si with imageURI := si.imageName }

/-- Embedding of `resolveContainerImage`: classification in source
order — `docker://` prefix, then `shub://` prefix, then `.simg`/`.img`
suffix (kept verbatim), else an unresolvable-image error. -/
def resolveContainerImage (env : ExecEnv) (si : SingularityInfo) :
    Except String SingularityInfo :=
  if hasPrefixStr "docker://" si.imageName then buildImageURI env si "docker://"
  else if hasPrefixStr "shub://" si.imageName then buildImageURI env si "shub://"
  else if hasSuffixStr ".simg" si.imageName ∨ hasSuffixStr ".img" si.imageName then
    .ok { si with imageURI := si.imageName }
  else
    .error ("Unable to resolve container image URI from image name:\"" ++ si.imageName ++ "\"")

/-- Loop body of `buildSingularityInfo`'s input scan: an input named
`exec_command` with a non-empty value sets the exec command and the
`exec` sub-command; any other input changes nothing. -/
def execScanStep (si : SingularityInfo) (input : EnvInput) : SingularityInfo :=
  if input.name = "exec_command" ∧ input.value ≠ "" then
    { si with exec := input.value, command := "exec" }
  else si

/-- Embedding of `buildSingularityInfo`: scan the environment inputs,
every input named `exec_command` with a non-empty value setting the exec
command and the `exec` sub-command (the last one winning); take the
artifact's primary image name, mandatory; default the sub-command to
`run`; then resolve the container image. -/
def buildSingularityInfo (env : ExecEnv) : Except String SingularityInfo :=
  let si0 : SingularityInfo := { command := "", exec := "", imageName := "", imageURI := "" }
  let si1 := env.envInputs.foldl execScanStep si0
  let si2 := { si1 with imageName := env.primary }
  if si2.imageName = "" then
    .error "The image name is mandatory and must be filled in the operation artifact implementation"
  else
    let si3 := if si2.command = "" then { si2 with command := "run" } else si2
    resolveContainerImage env si3

/-- Batch submission command exactly as composed by `runBatchMode`:
`mkdir -p dir;cd dir;sbatch --wrap="exports srun opts singularity
subcommand imageURI exec"` with the values substituted verbatim. -/
def batchCmd (env : ExecEnv) (si : SingularityInfo) (ji : JobInfo) (opts : String) : String :=
  "mkdir -p " ++ env.operationRemoteBaseDir ++ ";cd " ++ env.operationRemoteBaseDir ++
    ";sbatch --wrap=\"" ++ exportsString ji.inputs ++ "srun " ++ opts ++ " singularity " ++
    si.command ++ " " ++ si.imageURI ++ " " ++ si.exec ++ "\""

/-- Interactive command exactly as composed by `runInteractiveMode`,
redirecting into the freshly generated timestamped file and detaching
with `&`; the source then applies `strings.Trim` with an empty cutset,
embedded faithfully as `goTrim _ ""`. -/
def interactiveCmd (env : ExecEnv) (si : SingularityInfo) (ji : JobInfo) (opts : String) :
    String :=
  goTrim
    (exportsString ji.inputs ++ "srun " ++ opts ++ " singularity " ++ si.command ++ " " ++
      String.intercalate " " ji.execArgs ++ " " ++ si.imageURI ++ " " ++ si.exec ++
      " > " ++ env.uniqueTimestampedName ++ " &")
    ""

/-- Embedding of `runBatchMode`: run the batch command over the
transport (recorded in the trace); a transport error is wrapped with the
raw output; otherwise the output is newline-trimmed and the job
identifier parsed from it, assigned into the job information. -/
def runBatchMode (env : ExecEnv) (si : SingularityInfo) (ji : JobInfo) (opts : String) :
    Except String Unit × JobInfo × List String :=
  let cmd := batchCmd env si ji opts
  match env.runCommand cmd with
  | (output, some e) => (.error (output ++ ": " ++ e), ji, [cmd])
  | (output, none) =>
    match parseJobIDFromBatchOutput (goTrim output "\n") with
    | .error e => (.error e, ji, [cmd])
    | .ok jid => (.ok (), { ji with id := jid }, [cmd])

/-- Embedding of `runInteractiveMode`: assign the generated redirect
file as the job's sole output, then run the interactive command over the
transport (recorded in the trace); a transport error is wrapped with the
raw output.  The outputs assignment happens before the transport call
and is kept in the returned state on either path. -/
def runInteractiveMode (env : ExecEnv) (si : SingularityInfo) (ji : JobInfo) (opts : String) :
    Except String Unit × JobInfo × List String :=
  let ji1 := { ji with outputs := [env.uniqueTimestampedName] }
  let cmd := interactiveCmd env si ji1 opts
  match env.runCommand cmd with
  | (output, some e) => (.error (output ++ ": " ++ e), ji1, [cmd])
  | (_, none) => (.ok (), ji1, [cmd])

/-- Embedding of `searchForBatchOutputs`: derive the batch outputs from
the declared options (the parser lives outside the provided sources);
the Go function always returns a nil error. -/
def searchForBatchOutputs (env : ExecEnv) (ji : JobInfo) : JobInfo :=
  { ji with outputs := env.parseOutputConfigFromOpts ji.opts }

/-- Embedding of `runJobCommand`: resolve the options, then in batch
mode derive the outputs and submit via `runBatchMode`; in interactive
mode run `runInteractiveMode` and, on success, the separate
`retrieveJobID` lookup.  (The source also copies the remote base
directory into `OperationRemoteExecDir`, a field only read by code
outside the provided sources.) -/
def runJobCommand (env : ExecEnv) (si : SingularityInfo) (ji : JobInfo) :
    Except String Unit × JobInfo × List String :=
  let opts := env.fillJobCommandOpts
  if ji.batchMode then
    runBatchMode env si (searchForBatchOutputs env ji) opts
  else
    match runInteractiveMode env si ji opts with
    | (.error e, ji2, tr) => (.error e, ji2, tr)
    | (.ok _, ji2, tr) =>
      match env.retrieveJobID ji2 with
      | .error e => (.error e, ji2, tr)
      | .ok ji3 => (.ok (), ji3, tr)

/-- Modelled from the spec: the monitoring handle packages deployment
identity and job identifier for the external poller. -/
def buildJobMonitoringAction (env : ExecEnv) (ji : JobInfo) : MonitoringAction :=
  { deploymentID := env.deploymentID, jobID := ji.id }

/-- Decidable equality for `Except` results, so that concrete outcomes
can be checked by evaluation. -/
instance {ε α : Type} [DecidableEq ε] [DecidableEq α] : DecidableEq (Except ε α) := fun x y =>
  match x, y with
  | .ok a, .ok b =>
    if h : a = b then .isTrue (by rw [h]) else .isFalse fun hc => h (Except.ok.inj hc)
  | .error a, .error b =>
    if h : a = b then .isTrue (by rw [h]) else .isFalse fun hc => h (Except.error.inj hc)
  | .ok _, .error _ => .isFalse fun hc => Except.noConfusion hc
  | .error _, .ok _ => .isFalse fun hc => Except.noConfusion hc

/-- Observable outcome of one dispatch: the returned value (monitoring
action and poll interval, or the error message), the final job and
singularity information, and the trace of every remote command handed to
the transport, in order. -/
structure ExecOutcome where
  result : Except String (MonitoringAction × Nat)
  jobInfo : Option JobInfo
  singularityInfo : Option SingularityInfo
  trace : List String
deriving Repr, DecidableEq

/-- Embedding of `executeAsync`: switch on the lower-cased operation
name — only the runnable lifecycle operation is dispatched, anything
else is the unsupported-operation error (Go `%q` quotes the name) with
no further action; then build the job information, the singularity
information, run the job command, and on success return the monitoring
action with the polling interval.  Each wrapping mirrors the
`errors.Wrap` message of the source. -/
def executeAsync (env : ExecEnv) : ExecOutcome :=
  if lowerString env.operation.name = "tosca.interfaces.node.lifecycle.runnable.run" then
    match env.buildJobInfo with
    | .error e =>
      { result := .error ("failed to build job information: " ++ e),
        jobInfo := none, singularityInfo := none, trace := [] }
    | .ok ji =>
      match buildSingularityInfo env with
      | .error e =>
        { result := .error ("failed to build singularity information: " ++ e),
          jobInfo := some ji, singularityInfo := none, trace := [] }
      | .ok si =>
        match runJobCommand env si ji with
        | (.error e, ji2, tr) =>
          { result := .error ("failed to run command: " ++ e),
            jobInfo := some ji2, singularityInfo := some si, trace := tr }
        | (.ok _, ji2, tr) =>
          { result := .ok (buildJobMonitoringAction env ji2, ji2.monitoringTimeInterval),
            jobInfo := some ji2, singularityInfo := some si, trace := tr }
  else
    { result := .error ("Unsupported operation \"" ++ env.operation.name ++ "\""),
      jobInfo := none, singularityInfo := none, trace := [] }

/-! ## Concrete dispatch environments used for evaluation -/

/-- Concrete batch-mode job information. -/
def jiBatch : JobInfo :=
  { id := "", batchMode := true, monitoringTimeInterval := 5,
    inputs := [], outputs := [], execArgs := [], opts := [] }

/-- Concrete interactive-mode job information with two extra execution
arguments. -/
def jiInter : JobInfo :=
  { id := "", batchMode := false, monitoringTimeInterval := 7,
    inputs := [], outputs := [], execArgs := ["-a", "-b"], opts := [] }

/-- Concrete singularity information after resolving `docker://h/img`
with no declared repository. -/
def siRun : SingularityInfo :=
  { command := "run", exec := "", imageName := "docker://h/img", imageURI := "docker://h/img" }

/-- Baseline dispatch environment: mixed-case runnable operation name,
batch mode, docker image, no declared repository, transport
acknowledging with a batch job identifier. -/
def envRun : ExecEnv :=
  { operation := { name := "Tosca.Interfaces.Node.Lifecycle.Runnable.Run",
                   implementedInNodeTemplate := "tmpl" }
    envInputs := []
    primary := "docker://h/img"
    nodeType := "nt"
    operationRemoteBaseDir := "/work"
    deploymentID := "dep1"
    runCommand := fun _ => ("Submitted batch job 4821", none)
    getOperationImplementationRepository := .ok ""
    getRepositoryURLFromName := fun _ => .ok ""
    buildJobInfo := .ok jiBatch
    fillJobCommandOpts := ""
    parseOutputConfigFromOpts := fun _ => []
    uniqueTimestampedName := "yorc_1561454894"
    retrieveJobID := fun ji => .ok ji }

/-- Environment carrying an operation name outside the runnable
lifecycle. -/
def envOther : ExecEnv :=
  { envRun with operation := { name := "tosca.interfaces.node.lifecycle.standard.start",
                               implementedInNodeTemplate := "tmpl" } }

/-- Environment declaring a private repository `myrepo` whose URL host
is `myregistry.org`. -/
def envRepo : ExecEnv :=
  { envRun with
    primary := "docker://busybox"
    getOperationImplementationRepository := .ok "myrepo"
    getRepositoryURLFromName := fun r =>
      if r = "myrepo" then .ok "https://myregistry.org" else .error "unknown repository" }

/-- Singularity information for the degenerate raw image name
`docker://` (prefix present, empty remainder). -/
def siRepoRoot : SingularityInfo :=
  { command := "run", exec := "", imageName := "docker://", imageURI := "" }

/-- Singularity information for the raw image name `docker://busybox`
before resolution. -/
def siBusy : SingularityInfo :=
  { command := "run", exec := "", imageName := "docker://busybox", imageURI := "" }

/-- Environment with several `exec_command` inputs, empty-valued ones
interleaved. -/
def envExec : ExecEnv :=
  { envRun with envInputs :=
      [⟨"exec_command", "echo a"⟩, ⟨"other", "x"⟩, ⟨"exec_command", ""⟩,
       ⟨"exec_command", "echo b"⟩] }

/-- Resolved singularity information for `envExec`: the last non-empty
`exec_command` input selects the exec sub-command. -/
def siExec : SingularityInfo :=
  { command := "exec", exec := "echo b", imageName := "docker://h/img",
    imageURI := "docker://h/img" }

/-- Interactive environment whose transport fails with an error and some
remote output. -/
def envInterErr : ExecEnv :=
  { envRun with
    buildJobInfo := .ok jiInter
    runCommand := fun _ => ("remote failure output", some "ssh error") }

/-! ## Helper lemmas -/

/-- Both modes issue the batch command exactly once: the transport trace
of `runBatchMode` is the singleton batch command, on the error path as
well as on the success path. -/
theorem runBatchMode_trace (env : ExecEnv) (si : SingularityInfo) (ji : JobInfo)
    (opts : String) : (runBatchMode env si ji opts).2.2 = [batchCmd env si ji opts] := by
  unfold runBatchMode
  rcases h : env.runCommand (batchCmd env si ji opts) with ⟨out, err⟩
  cases err with
  | none =>
    cases hp : parseJobIDFromBatchOutput (goTrim out "\n") <;> simp [h, hp]
  | some e => simp [h]

/-- The transport trace of `runInteractiveMode` is the singleton
interactive command, and the returned job information carries the
generated redirect file as its sole output on every path. -/
theorem runInteractiveMode_results (env : ExecEnv) (si : SingularityInfo) (ji : JobInfo)
    (opts : String) :
    (runInteractiveMode env si ji opts).2.1.outputs = [env.uniqueTimestampedName]
  ∧ (runInteractiveMode env si ji opts).2.2 =
      [interactiveCmd env si { ji with outputs := [env.uniqueTimestampedName] } opts] := by
  unfold runInteractiveMode
  rcases h : env.runCommand
      (interactiveCmd env si { ji with outputs := [env.uniqueTimestampedName] } opts) with ⟨out, err⟩
  cases err <;> simp [h]

/-- Every call of `runJobCommand` issues exactly one transport
command. -/
theorem runJobCommand_trace_length (env : ExecEnv) (si : SingularityInfo) (ji : JobInfo) :
    (runJobCommand env si ji).2.2.length = 1 := by
  unfold runJobCommand
  by_cases hb : ji.batchMode
  · simp [hb, runBatchMode_trace]
  · simp only [hb, if_neg, Bool.false_eq_true, if_false]
    rcases hi : runInteractiveMode env si ji env.fillJobCommandOpts with ⟨res, ji2, tr⟩
    have htr : tr = [interactiveCmd env si { ji with outputs := [env.uniqueTimestampedName] }
        env.fillJobCommandOpts] := by
      have := (runInteractiveMode_results env si ji env.fillJobCommandOpts).2
      rw [hi] at this
      exact this
    cases res with
    | error e => simp [htr]
    | ok _ =>
      cases hr : env.retrieveJobID ji2 <;> simp [htr, hr]

/-- A message built on top of a string beginning with the letter `f`
never carries the unsupported-operation marker. -/
theorem unsupportedMarkerAbsent (x e : String) (hx : x.data.head? = some 'f') :
    "Unsupported operation".data.isPrefixOf (x ++ e).data = false := by
  have h1 : "Unsupported operation".data = 'U' :: "nsupported operation".data := rfl
  rcases hd : x.data with _ | ⟨c, t⟩
  · rw [hd] at hx; simp at hx
  · have hc : c = 'f' := by rw [hd] at hx; simpa using hx
    rw [String.data_append, hd, hc, h1]
    simp [List.isPrefixOf]

/-! ## Claim theorems -/

/-- C1: dispatch accepts exactly the operation named
`tosca.interfaces.node.lifecycle.runnable.run`, matched
case-insensitively: a request whose case-folded operation name differs
from this literal fails with the unsupported-operation error and
performs zero transport calls, while a request whose case-folded name
matches never produces an unsupported-operation error. -/
theorem executeAsync_operation_gate (env : ExecEnv) :
    (lowerString env.operation.name ≠ "tosca.interfaces.node.lifecycle.runnable.run" →
      (executeAsync env).result =
          .error ("Unsupported operation \"" ++ env.operation.name ++ "\"")
        ∧ (executeAsync env).trace = [])
  ∧ (lowerString env.operation.name = "tosca.interfaces.node.lifecycle.runnable.run" →
      ∀ m, (executeAsync env).result = .error m →
        "Unsupported operation".data.isPrefixOf m.data = false) := by
  constructor
  · intro h
    unfold executeAsync
    rw [if_neg h]
    exact ⟨rfl, rfl⟩
  · intro h m hm
    unfold executeAsync at hm
    rw [if_pos h] at hm
    cases hji : env.buildJobInfo with
    | error e =>
      rw [hji] at hm
      simp only at hm
      rw [← Except.error.inj hm]
      exact unsupportedMarkerAbsent "failed to build job information: " e rfl
    | ok ji =>
      rw [hji] at hm
      simp only at hm
      cases hsi : buildSingularityInfo env with
      | error e =>
        rw [hsi] at hm
        simp only at hm
        rw [← Except.error.inj hm]
        exact unsupportedMarkerAbsent "failed to build singularity information: " e rfl
      | ok si =>
        rw [hsi] at hm
        simp only at hm
        rcases hr : runJobCommand env si ji with ⟨res, ji2, tr⟩
        rw [hr] at hm
        cases res with
        | error e =>
          simp only at hm
          rw [← Except.error.inj hm]
          exact unsupportedMarkerAbsent "failed to run command: " e rfl
        | ok u => simp at hm

/-- Witness for C1: the environment whose operation is the standard
start lifecycle operation fails with the unsupported-operation error and
an empty transport trace. -/
theorem executeAsync_operation_gate_witness :
    (executeAsync envOther).result =
        .error "Unsupported operation \"tosca.interfaces.node.lifecycle.standard.start\""
      ∧ (executeAsync envOther).trace = [] :=
  (executeAsync_operation_gate envOther).1 (by decide)

/-- C3: image classification checks, in this fixed priority order, the
`docker://` prefix, then the `shub://` prefix, then the `.simg`/`.img`
suffix; a suffix-classified name (no recognized prefix) resolves to
itself for every environment, whatever repository the environment
declares, so no registry lookup takes place; a non-empty name matching
none of the grammars fails with the unresolvable-image error; and a name
carrying both a recognized prefix and a `.simg`/`.img` suffix is
classified by its prefix, since the prefix cases apply with no suffix
assumption. -/
theorem resolveContainerImage_classification (env : ExecEnv) (si : SingularityInfo) :
    (hasPrefixStr "docker://" si.imageName = true →
      resolveContainerImage env si = buildImageURI env si "docker://")
  ∧ (hasPrefixStr "docker://" si.imageName = false →
      hasPrefixStr "shub://" si.imageName = true →
      resolveContainerImage env si = buildImageURI env si "shub://")
  ∧ (hasPrefixStr "docker://" si.imageName = false →
      hasPrefixStr "shub://" si.imageName = false →
      (hasSuffixStr ".simg" si.imageName = true ∨ hasSuffixStr ".img" si.imageName = true) →
      resolveContainerImage env si = .ok { si with imageURI := si.imageName })
  ∧ (si.imageName ≠ "" →
      hasPrefixStr "docker://" si.imageName = false →
      hasPrefixStr "shub://" si.imageName = false →
      hasSuffixStr ".simg" si.imageName = false →
      hasSuffixStr ".img" si.imageName = false →
      resolveContainerImage env si =
        .error ("Unable to resolve container image URI from image name:\"" ++
          si.imageName ++ "\"")) := by
  refine ⟨fun h1 => ?_, fun h1 h2 => ?_, fun h1 h2 h3 => ?_, fun h0 h1 h2 h3 h4 => ?_⟩
  · simp [resolveContainerImage, h1]
  · simp [resolveContainerImage, h1, h2]
  · rcases h3 with h3 | h3 <;> simp [resolveContainerImage, h1, h2, h3]
  · simp [resolveContainerImage, h1, h2, h3, h4]

/-- Witness for C3: a `.simg` name held by an environment that declares
a private repository still resolves to itself. -/
theorem resolveContainerImage_classification_witness :
    resolveContainerImage envRepo
        { command := "run", exec := "", imageName := "myimg.simg", imageURI := "" } =
      .ok { command := "run", exec := "", imageName := "myimg.simg", imageURI := "myimg.simg" } :=
  (resolveContainerImage_classification envRepo
      { command := "run", exec := "", imageName := "myimg.simg", imageURI := "" }).2.2.1
    (by decide) (by decide) (Or.inl (by decide))

/-- C7: an empty raw image name makes building the singularity
information fail with the missing-image-name error — identically for
every environment, so neither classification nor any registry lookup can
influence it — and the dispatch as a whole performs zero transport
calls. -/
theorem buildSingularityInfo_missing_image (env : ExecEnv) (h : env.primary = "") :
    buildSingularityInfo env =
      .error "The image name is mandatory and must be filled in the operation artifact implementation"
  ∧ (executeAsync env).trace = [] := by
  have hb : buildSingularityInfo env =
      .error "The image name is mandatory and must be filled in the operation artifact implementation" := by
    simp [buildSingularityInfo, h]
  refine ⟨hb, ?_⟩
  unfold executeAsync
  split
  · cases hji : env.buildJobInfo with
    | error e => simp [hji]
    | ok ji => simp [hji, hb]
  · simp

/-- Witness for C7: the baseline environment with an emptied image
name. -/
theorem buildSingularityInfo_missing_image_witness :
    buildSingularityInfo { envRun with primary := "" } =
      .error "The image name is mandatory and must be filled in the operation artifact implementation"
  ∧ (executeAsync { envRun with primary := "" }).trace = [] :=
  buildSingularityInfo_missing_image { envRun with primary := "" } rfl

/-- C4: the batch-mode command is exactly `mkdir -p dir;cd dir;sbatch
--wrap="exports srun opts singularity subcommand imageURI exec"` with
the values substituted verbatim; the extra execution arguments are not
embedded in it (job informations differing only in their execution
arguments produce identical transport traces); and the concrete instance
with empty exports, empty options, sub-command `run`, image URI
`docker://h/img` and directory `/work` is byte-for-byte
`mkdir -p /work;cd /work;sbatch --wrap="srun  singularity run docker://h/img "`,
with two spaces after `srun` and a trailing space before the closing
quote. -/
theorem runBatchMode_command (env : ExecEnv) (si : SingularityInfo) (ji : JobInfo)
    (opts : String) :
    (runBatchMode env si ji opts).2.2 =
      ["mkdir -p " ++ env.operationRemoteBaseDir ++ ";cd " ++ env.operationRemoteBaseDir ++
        ";sbatch --wrap=\"" ++ exportsString ji.inputs ++ "srun " ++ opts ++ " singularity " ++
        si.command ++ " " ++ si.imageURI ++ " " ++ si.exec ++ "\""]
  ∧ (∀ args₁ args₂ : List String,
      (runBatchMode env si { ji with execArgs := args₁ } opts).2.2 =
        (runBatchMode env si { ji with execArgs := args₂ } opts).2.2)
  ∧ batchCmd envRun siRun jiBatch "" =
      "mkdir -p /work;cd /work;sbatch --wrap=\"srun  singularity run docker://h/img \"" := by
  refine ⟨?_, fun args₁ args₂ => ?_, by decide⟩
  · rw [runBatchMode_trace]; rfl
  · rw [runBatchMode_trace, runBatchMode_trace]; rfl

/-- Characterization of the input scan: with no `exec_command` input of
non-empty value the fold is the identity, and otherwise the last such
input determines the sub-command and the exec command. -/
theorem foldl_execScanStep (inputs : List EnvInput) (si0 : SingularityInfo) :
    match (inputs.filter fun i => decide (i.name = "exec_command" ∧ i.value ≠ "")).getLast? with
    | some i => (inputs.foldl execScanStep si0).command = "exec"
        ∧ (inputs.foldl execScanStep si0).exec = i.value
    | none => inputs.foldl execScanStep si0 = si0 := by
  induction inputs generalizing si0 with
  | nil => simp
  | cons i is ih =>
    by_cases hq : i.name = "exec_command" ∧ i.value ≠ ""
    · have hstep : execScanStep si0 i = { si0 with exec := i.value, command := "exec" } := by
        simp [execScanStep, hq]
      have hfil : (i :: is).filter (fun i => decide (i.name = "exec_command" ∧ i.value ≠ "")) =
          i :: is.filter (fun i => decide (i.name = "exec_command" ∧ i.value ≠ "")) := by
        simp [List.filter_cons, hq]
      rw [List.foldl_cons, hstep, hfil]
      have ih' := ih { si0 with exec := i.value, command := "exec" }
      cases hlast : (is.filter fun i => decide (i.name = "exec_command" ∧ i.value ≠ "")).getLast? with
      | none =>
        rw [hlast] at ih'
        try simp only at ih'
        have hnil : is.filter (fun i => decide (i.name = "exec_command" ∧ i.value ≠ "")) = [] :=
          List.getLast?_eq_none_iff.mp hlast
        rw [hnil]
        simp [ih']
      | some j =>
        rw [hlast] at ih'
        try simp only at ih'
        rcases hne : is.filter (fun i => decide (i.name = "exec_command" ∧ i.value ≠ "")) with
          _ | ⟨x, xs⟩
        · rw [hne] at hlast; simp at hlast
        · rw [hne] at hlast ⊢
          simp only [List.getLast?_cons_cons]
          rw [hlast]
          exact ih'
    · have hstep : execScanStep si0 i = si0 := by
        simp [execScanStep, hq]
      have hfil : (i :: is).filter (fun i => decide (i.name = "exec_command" ∧ i.value ≠ "")) =
          is.filter (fun i => decide (i.name = "exec_command" ∧ i.value ≠ "")) := by
        simp [List.filter_cons, hq]
      rw [List.foldl_cons, hstep, hfil]
      exact ih si0

/-- On success `buildImageURI` changes only the resolved image URI. -/
theorem buildImageURI_preserves (env : ExecEnv) (si : SingularityInfo) (pre : String)
    (si' : SingularityInfo) (h : buildImageURI env si pre = .ok si') :
    si'.command = si.command ∧ si'.exec = si.exec ∧ si'.imageName = si.imageName := by
  unfold buildImageURI at h
  cases hr : env.getOperationImplementationRepository with
  | error e => rw [hr] at h; cases h
  | ok rn =>
    rw [hr] at h
    try simp only at h
    split at h
    · rw [← Except.ok.inj h]; exact ⟨rfl, rfl, rfl⟩
    · cases hu : env.getRepositoryURLFromName rn with
      | error e => rw [hu] at h; cases h
      | ok u =>
        rw [hu] at h
        try simp only at h
        split at h
        · rw [← Except.ok.inj h]; exact ⟨rfl, rfl, rfl⟩
        · split at h
          · cases hp : urlParseHost u with
            | error e => rw [hp] at h; cases h
            | ok host =>
              rw [hp] at h
              try simp only at h
              rw [← Except.ok.inj h]; exact ⟨rfl, rfl, rfl⟩
          · rw [← Except.ok.inj h]; exact ⟨rfl, rfl, rfl⟩

/-- On success `resolveContainerImage` changes only the resolved image
URI. -/
theorem resolveContainerImage_preserves (env : ExecEnv) (si : SingularityInfo)
    (si' : SingularityInfo) (h : resolveContainerImage env si = .ok si') :
    si'.command = si.command ∧ si'.exec = si.exec ∧ si'.imageName = si.imageName := by
  unfold resolveContainerImage at h
  split at h
  · exact buildImageURI_preserves env si "docker://" si' h
  · split at h
    · exact buildImageURI_preserves env si "shub://" si' h
    · split at h
      · rw [← Except.ok.inj h]; exact ⟨rfl, rfl, rfl⟩
      · cases h

/-- C9: the container runtime sub-command and the in-container command
are selected from the inputs named `exec_command` holding a non-empty
value: when at least one exists, the sub-command is `exec` and the
in-container command is the value of the last such input (empty-valued
`exec_command` inputs neither count nor reset an earlier choice);
otherwise the sub-command defaults to `run` with an empty in-container
command.  Hence the in-container command is non-empty only when the
sub-command is `exec`. -/
theorem buildSingularityInfo_exec_selection (env : ExecEnv) (si : SingularityInfo)
    (h : buildSingularityInfo env = .ok si) :
    (match (env.envInputs.filter fun i =>
        decide (i.name = "exec_command" ∧ i.value ≠ "")).getLast? with
     | some i => si.command = "exec" ∧ si.exec = i.value
     | none => si.command = "run" ∧ si.exec = "")
  ∧ (si.exec ≠ "" → si.command = "exec") := by
  unfold buildSingularityInfo at h
  simp only at h
  have hsel := foldl_execScanStep env.envInputs
    { command := "", exec := "", imageName := "", imageURI := "" }
  cases hlast : (env.envInputs.filter fun i =>
      decide (i.name = "exec_command" ∧ i.value ≠ "")).getLast? with
  | some j =>
    rw [hlast] at hsel
    try simp only at hsel
    split at h
    · cases h
    · split at h
      · next hcmd =>
        exfalso
        try simp only at hcmd
        rw [hsel.1] at hcmd
        exact absurd hcmd (by decide)
      · next hcmd =>
        have hpres := resolveContainerImage_preserves env _ si h
        have hcom : si.command = "exec" := hpres.1.trans hsel.1
        have hexe : si.exec = j.value := hpres.2.1.trans hsel.2
        exact ⟨⟨hcom, hexe⟩, fun _ => hcom⟩
  | none =>
    rw [hlast] at hsel
    try simp only at hsel
    split at h
    · cases h
    · rw [hsel] at h
      split at h
      · next hcmd =>
        have hpres := resolveContainerImage_preserves env _ si h
        have hcom : si.command = "run" := hpres.1
        have hexe : si.exec = "" := hpres.2.1
        exact ⟨⟨hcom, hexe⟩, fun hx => absurd hexe hx⟩
      · next hcmd =>
        exact absurd rfl hcmd

/-- Witness for C9: among three `exec_command` inputs, two non-empty,
the last non-empty one wins and the sub-command is `exec`. -/
theorem buildSingularityInfo_exec_selection_witness :
    buildSingularityInfo envExec = .ok siExec
  ∧ ((match (envExec.envInputs.filter fun i =>
        decide (i.name = "exec_command" ∧ i.value ≠ "")).getLast? with
      | some i => siExec.command = "exec" ∧ siExec.exec = i.value
      | none => siExec.command = "run" ∧ siExec.exec = "")
    ∧ (siExec.exec ≠ "" → siExec.command = "exec")) :=
  ⟨by decide, buildSingularityInfo_exec_selection envExec siExec (by decide)⟩

/-- Trimming with an empty cutset removes nothing, like Go
`strings.Trim` with an empty cutset. -/
theorem goTrim_empty_cutset (s : String) : goTrim s "" = s := by
  apply String.ext
  show ((s.data.dropWhile fun c => ("" : String).data.contains c).reverse.dropWhile
      fun c => ("" : String).data.contains c).reverse = s.data
  have hf : (fun c => ("" : String).data.contains c) = fun _ => false := by
    funext c; rfl
  rw [hf]
  rw [List.dropWhile_eq_self_iff.mpr, List.dropWhile_eq_self_iff.mpr,
    List.reverse_reverse] <;> simp

/-- Dropping while a predicate that fails at the head leaves the list
unchanged. -/
theorem dropWhile_eq_self_of_head (p : Char → Bool) (l : List Char)
    (h : ∀ c, l.head? = some c → p c = false) : l.dropWhile p = l := by
  cases l with
  | nil => rfl
  | cons c t => exact List.dropWhile_cons_of_neg (by simp [h c rfl])

/-- A string whose first and last characters are not whitespace equals
its own whitespace-trim. -/
theorem trimWS_eq_self (s : String)
    (h1 : ∀ c, s.data.head? = some c → c.isWhitespace = false)
    (h2 : ∀ c, s.data.reverse.head? = some c → c.isWhitespace = false) :
    trimWS s = s := by
  apply String.ext
  show ((s.data.dropWhile Char.isWhitespace).reverse.dropWhile Char.isWhitespace).reverse = s.data
  rw [dropWhile_eq_self_of_head Char.isWhitespace s.data h1,
    dropWhile_eq_self_of_head Char.isWhitespace s.data.reverse h2,
    List.reverse_reverse]

/-- The head of an append is the head of its first part when that part
is non-empty. -/
theorem head?_append_of_head (l1 l2 : List Char) (c : Char) (h : l1.head? = some c) :
    (l1 ++ l2).head? = some c := by
  cases l1 with
  | nil => cases h
  | cons a t => simpa using h

/-- String version of `head?_append_of_head` through `data`. -/
theorem head?_data_append_of_head (x y : String) (c : Char) (h : x.data.head? = some c) :
    (x ++ y).data.head? = some c := by
  rw [String.data_append]
  exact head?_append_of_head x.data y.data c h

/-- Folding the export accumulation from any accumulator prepends the
accumulator to the exports of the inputs. -/
theorem exportsString_foldl_append (inputs : List (String × String)) (acc : String) :
    inputs.foldl (fun a kv => a ++ "export " ++ kv.1 ++ "=" ++ kv.2 ++ ";") acc =
      acc ++ exportsString inputs := by
  induction inputs generalizing acc with
  | nil =>
    show acc = acc ++ exportsString []
    rw [show exportsString [] = "" from rfl, String.append_empty]
  | cons kv is ih =>
    rw [List.foldl_cons, ih]
    conv_rhs => rw [exportsString, List.foldl_cons, ih]
    simp [String.append_assoc]

/-- The exports string starts with the letter `e` whenever it is
non-empty. -/
theorem exportsString_head_e (inputs : List (String × String)) :
    ∀ c, (exportsString inputs).data.head? = some c → c = 'e' := by
  intro c h
  cases inputs with
  | nil => cases h
  | cons kv is =>
    rw [exportsString, List.foldl_cons, exportsString_foldl_append] at h
    have he : (("" ++ "export " ++ kv.1 ++ "=" ++ kv.2 ++ ";") ++ exportsString is).data.head? =
        some 'e' := by
      apply head?_data_append_of_head
      apply head?_data_append_of_head
      apply head?_data_append_of_head
      apply head?_data_append_of_head
      apply head?_data_append_of_head
      rfl
    rw [he] at h
    exact (Option.some.inj h).symm

/-- C5: in interactive mode the transport receives exactly the command
`exports srun opts singularity subcommand args imageURI exec >
redirectFile &` — ending in the redirect to the freshly generated
redirect file followed by the detaching ampersand — and the handed
string carries no leading or trailing whitespace, so it equals its own
whitespace-trim (the source's `strings.Trim` call passes an empty
cutset, which removes nothing, and the assembled string never has edge
whitespace to remove). -/
theorem runInteractiveMode_command (env : ExecEnv) (si : SingularityInfo) (ji : JobInfo)
    (opts : String) :
    (runInteractiveMode env si ji opts).2.2 =
      [exportsString ji.inputs ++ "srun " ++ opts ++ " singularity " ++ si.command ++ " " ++
        String.intercalate " " ji.execArgs ++ " " ++ si.imageURI ++ " " ++ si.exec ++
        " > " ++ env.uniqueTimestampedName ++ " &"]
  ∧ (∀ cmd, (runInteractiveMode env si ji opts).2.2 = [cmd] → trimWS cmd = cmd) := by
  have hcmd : interactiveCmd env si { ji with outputs := [env.uniqueTimestampedName] } opts =
      exportsString ji.inputs ++ "srun " ++ opts ++ " singularity " ++ si.command ++ " " ++
        String.intercalate " " ji.execArgs ++ " " ++ si.imageURI ++ " " ++ si.exec ++
        " > " ++ env.uniqueTimestampedName ++ " &" := by
    unfold interactiveCmd
    rw [goTrim_empty_cutset]
  have htr : (runInteractiveMode env si ji opts).2.2 =
      [exportsString ji.inputs ++ "srun " ++ opts ++ " singularity " ++ si.command ++ " " ++
        String.intercalate " " ji.execArgs ++ " " ++ si.imageURI ++ " " ++ si.exec ++
        " > " ++ env.uniqueTimestampedName ++ " &"] := by
    rw [(runInteractiveMode_results env si ji opts).2, hcmd]
  refine ⟨htr, fun cmd hc => ?_⟩
  rw [htr] at hc
  have hcC := (List.cons.inj hc).1.symm
  subst hcC
  have hbase : ∃ c0, (exportsString ji.inputs ++ "srun ").data.head? = some c0 ∧
      c0.isWhitespace = false := by
    cases hinp : ji.inputs with
    | nil => exact ⟨'s', rfl, by decide⟩
    | cons kv is =>
      refine ⟨'e', ?_, by decide⟩
      apply head?_data_append_of_head
      cases hd : (exportsString (kv :: is)).data with
      | nil =>
        exfalso
        have he := exportsString_head_e (kv :: is)
        rw [exportsString, List.foldl_cons, exportsString_foldl_append] at hd
        have hcontra : (("" ++ "export " ++ kv.1 ++ "=" ++ kv.2 ++ ";") ++
            exportsString is).data.head? = some 'e' := by
          apply head?_data_append_of_head
          apply head?_data_append_of_head
          apply head?_data_append_of_head
          apply head?_data_append_of_head
          apply head?_data_append_of_head
          rfl
        rw [hd] at hcontra
        cases hcontra
      | cons a t =>
        have ha : a = 'e' := exportsString_head_e (kv :: is) a (by rw [hd]; rfl)
        rw [ha]
        rfl
  obtain ⟨c0, hc0, hws0⟩ := hbase
  apply trimWS_eq_self
  · intro c hc1
    have hC0 : (exportsString ji.inputs ++ "srun " ++ opts ++ " singularity " ++ si.command ++
        " " ++ String.intercalate " " ji.execArgs ++ " " ++ si.imageURI ++ " " ++ si.exec ++
        " > " ++ env.uniqueTimestampedName ++ " &").data.head? = some c0 := by
      iterate 12 apply head?_data_append_of_head
      exact hc0
    rw [hC0] at hc1
    rw [← Option.some.inj hc1]
    exact hws0
  · intro c hc2
    have hC2 : (exportsString ji.inputs ++ "srun " ++ opts ++ " singularity " ++ si.command ++
        " " ++ String.intercalate " " ji.execArgs ++ " " ++ si.imageURI ++ " " ++ si.exec ++
        " > " ++ env.uniqueTimestampedName ++ " &").data.reverse.head? = some '&' := by
      rw [String.data_append, List.reverse_append]
      apply head?_append_of_head
      rfl
    rw [hC2] at hc2
    rw [← Option.some.inj hc2]
    decide

/-- Witness for C5: the concrete interactive command of the baseline
environment with two execution arguments equals its own
whitespace-trim. -/
theorem runInteractiveMode_command_witness :
    trimWS ("srun  singularity run -a -b docker://h/img  > yorc_1561454894 &") =
      "srun  singularity run -a -b docker://h/img  > yorc_1561454894 &" :=
  (runInteractiveMode_command envRun siRun jiInter "").2
    "srun  singularity run -a -b docker://h/img  > yorc_1561454894 &" (by decide)

/-- C10: in interactive mode the job's outputs list is assigned the
single generated redirect-file path before the transport call (the
returned job information holds it on every path, error included), and an
interactive dispatch failing with a transport error still leaves that
redirect-file path in the final job information — the outputs mutation
is not rolled back. -/
theorem runInteractiveMode_outputs_persist :
    (∀ (env : ExecEnv) (si : SingularityInfo) (ji : JobInfo) (opts : String),
      (runInteractiveMode env si ji opts).2.1.outputs = [env.uniqueTimestampedName])
  ∧ (∀ (env : ExecEnv) (ji : JobInfo) (si : SingularityInfo) (out err : String),
      lowerString env.operation.name = "tosca.interfaces.node.lifecycle.runnable.run" →
      env.buildJobInfo = .ok ji →
      ji.batchMode = false →
      buildSingularityInfo env = .ok si →
      env.runCommand (interactiveCmd env si { ji with outputs := [env.uniqueTimestampedName] }
          env.fillJobCommandOpts) = (out, some err) →
      (executeAsync env).result = .error ("failed to run command: " ++ (out ++ ": " ++ err))
        ∧ (executeAsync env).jobInfo =
            some { ji with outputs := [env.uniqueTimestampedName] }) := by
  constructor
  · intro env si ji opts
    exact (runInteractiveMode_results env si ji opts).1
  · intro env ji si out err hop hji hbm hsi hrc
    have hint : runInteractiveMode env si ji env.fillJobCommandOpts =
        (.error (out ++ ": " ++ err), { ji with outputs := [env.uniqueTimestampedName] },
          [interactiveCmd env si { ji with outputs := [env.uniqueTimestampedName] }
            env.fillJobCommandOpts]) := by
      simp only [runInteractiveMode]
      rw [hrc]
    have hrun : runJobCommand env si ji =
        (.error (out ++ ": " ++ err), { ji with outputs := [env.uniqueTimestampedName] },
          [interactiveCmd env si { ji with outputs := [env.uniqueTimestampedName] }
            env.fillJobCommandOpts]) := by
      simp only [runJobCommand]
      rw [if_neg (by simp [hbm] : ¬ ji.batchMode = true)]
      rw [hint]
    unfold executeAsync
    rw [if_pos hop, hji]
    simp only
    rw [hsi]
    simp only
    rw [hrun]
    exact ⟨rfl, rfl⟩

/-- Witness for C10: an interactive dispatch over a failing transport
reports the wrapped failure while the final job information still lists
the generated redirect file. -/
theorem runInteractiveMode_outputs_persist_witness :
    (executeAsync envInterErr).result =
        .error ("failed to run command: " ++ ("remote failure output" ++ ": " ++ "ssh error"))
      ∧ (executeAsync envInterErr).jobInfo =
          some { jiInter with outputs := ["yorc_1561454894"] } :=
  runInteractiveMode_outputs_persist.2 envInterErr jiInter
    { command := "run", exec := "", imageName := "docker://h/img", imageURI := "docker://h/img" }
    "remote failure output" "ssh error" (by decide) rfl rfl (by decide) rfl

/-- C6: with a successful transport in batch mode, the job identifier
recorded in the job information is the final whitespace-delimited token
of the newline-trimmed acknowledgment — parsing `Submitted batch job
4821` yields `4821` — and when no token can be extracted the submission
fails with the parse-failure error although the remote command was
already executed (the trace still holds the single batch command), with
no retry. -/
theorem runBatchMode_jobid_parse (env : ExecEnv) (si : SingularityInfo) (ji : JobInfo)
    (opts out : String)
    (hrc : env.runCommand (batchCmd env si ji opts) = (out, none)) :
    (∀ tok, (goFields (goTrim out "\n")).getLast? = some tok →
      runBatchMode env si ji opts = (.ok (), { ji with id := tok }, [batchCmd env si ji opts]))
  ∧ ((goFields (goTrim out "\n")).getLast? = none →
      runBatchMode env si ji opts =
        (.error ("Failed to parse job identifier from submission output: " ++ goTrim out "\n"),
          ji, [batchCmd env si ji opts]))
  ∧ parseJobIDFromBatchOutput "Submitted batch job 4821" = .ok "4821" := by
  refine ⟨fun tok htok => ?_, fun hnone => ?_, by decide⟩
  · simp only [runBatchMode]
    rw [hrc]
    simp only [parseJobIDFromBatchOutput, htok]
  · simp only [runBatchMode]
    rw [hrc]
    simp only [parseJobIDFromBatchOutput, hnone]

/-- Witness for C6: the baseline batch dispatch parses the acknowledgment
`Submitted batch job 4821` into job identifier `4821`. -/
theorem runBatchMode_jobid_parse_witness :
    runBatchMode envRun siRun jiBatch "" =
      (.ok (), { jiBatch with id := "4821" },
        ["mkdir -p /work;cd /work;sbatch --wrap=\"srun  singularity run docker://h/img \""]) :=
  (runBatchMode_jobid_parse envRun siRun jiBatch "" "Submitted batch job 4821" rfl).1
    "4821" (by decide)

/-- Counterexample for C8: a dispatch whose operation name is not the
runnable lifecycle operation performs zero remote command executions,
not exactly one. -/
theorem executeAsync_call_count_counterexample :
    (executeAsync envOther).trace = [] ∧ (executeAsync envOther).trace.length ≠ 1 := by
  decide

/-- C8 (amended): every dispatch performs at most one remote command
execution via the transport — no partial or multiple submissions and no
internal retry — and every dispatch whose result is a success performed
exactly one. -/
theorem executeAsync_at_most_one_call (env : ExecEnv) :
    (executeAsync env).trace.length ≤ 1
  ∧ (∀ a, (executeAsync env).result = .ok a → (executeAsync env).trace.length = 1) := by
  unfold executeAsync
  split
  · cases hji : env.buildJobInfo with
    | error e => simp
    | ok ji =>
      cases hsi : buildSingularityInfo env with
      | error e => simp
      | ok si =>
        rcases hr : runJobCommand env si ji with ⟨res, ji2, tr⟩
        have hlen : tr.length = 1 := by
          have h1 := runJobCommand_trace_length env si ji
          rw [hr] at h1
          exact h1
        cases res <;> simp [hr, hlen]
  · simp

/-- Witness for C8 (amended): the baseline successful batch dispatch
performed exactly one remote command execution. -/
theorem executeAsync_at_most_one_call_witness :
    (executeAsync envRun).trace.length = 1 :=
  (executeAsync_at_most_one_call envRun).2
    ({ deploymentID := "dep1", jobID := "4821" }, 5) (by decide)

/-- Slash-splitting never returns an empty list of segments. -/
theorem splitOnSlash_ne_nil (cs : List Char) : splitOnSlash cs ≠ [] := by
  cases cs with
  | nil => simp [splitOnSlash]
  | cons c rest =>
    unfold splitOnSlash
    split
    · simp
    · cases h : splitOnSlash rest <;> simp

/-- Rejoining a cons with a non-empty tail. -/
theorem joinSlash_cons (s : List Char) (ss : List (List Char)) (h : ss ≠ []) :
    joinSlash (s :: ss) = s ++ '/' :: joinSlash ss := by
  cases ss with
  | nil => exact absurd rfl h
  | cons t ts => rfl

/-- Splitting at slashes and rejoining is the identity. -/
theorem joinSlash_splitOnSlash (cs : List Char) : joinSlash (splitOnSlash cs) = cs := by
  induction cs with
  | nil => rfl
  | cons c rest ih =>
    unfold splitOnSlash
    by_cases hc : c = '/'
    · rw [if_pos hc]
      rw [joinSlash_cons [] (splitOnSlash rest) (splitOnSlash_ne_nil rest)]
      rw [ih, hc]
      rfl
    · rw [if_neg hc]
      cases h : splitOnSlash rest with
      | nil => exact absurd h (splitOnSlash_ne_nil rest)
      | cons s ss =>
        cases ss with
        | nil =>
          rw [h] at ih
          show joinSlash [c :: s] = c :: rest
          show c :: s = c :: rest
          rw [show joinSlash [s] = s from rfl] at ih
          rw [ih]
        | cons t ts =>
          rw [joinSlash_cons (c :: s) (t :: ts) (by simp)]
          rw [h] at ih
          rw [joinSlash_cons s (t :: ts) (by simp)] at ih
          rw [List.cons_append, ih]

/-- Processing already-normal segments pushes each of them onto the
stack. -/
theorem foldl_cleanStep_of_good (rooted : Bool) (segs : List (List Char))
    (h : ∀ sg ∈ segs, sg ≠ [] ∧ sg ≠ ['.'] ∧ sg ≠ ['.', '.']) (acc : List (List Char)) :
    segs.foldl (cleanStep rooted) acc = acc ++ segs := by
  induction segs generalizing acc with
  | nil => simp
  | cons sg rest ih =>
    have hsg := h sg (by simp)
    have hstep : cleanStep rooted acc sg = acc ++ [sg] := by
      unfold cleanStep
      rw [if_neg (not_or.mpr ⟨hsg.1, hsg.2.1⟩), if_neg hsg.2.2]
    rw [List.foldl_cons, hstep, ih (fun sg hm => h sg (by simp [hm])) (acc ++ [sg])]
    simp

/-- Go path cleaning is the identity on normal relative paths:
non-empty, not beginning with a slash, and with no empty, dot or dot-dot
segments. -/
theorem goClean_of_normal (p : String) (h0 : p ≠ "")
    (h1 : p.data.head? ≠ some '/')
    (h2 : ∀ sg ∈ splitOnSlash p.data, sg ≠ [] ∧ sg ≠ ['.'] ∧ sg ≠ ['.', '.']) :
    goClean p = p := by
  apply String.ext
  show goCleanChars p.data = p.data
  have hne : p.data ≠ [] := fun hc => h0 (String.ext hc)
  simp only [goCleanChars]
  rw [if_neg hne]
  rw [decide_eq_false h1]
  rw [if_neg Bool.false_ne_true]
  rw [foldl_cleanStep_of_good false (splitOnSlash p.data) h2 []]
  rw [List.nil_append, joinSlash_splitOnSlash]
  rw [if_neg hne]

/-- Go two-element path joining of normal components is plain slash
concatenation. -/
theorem goPathJoin_of_normal (a b : String) (ha : a ≠ "")
    (hh : a.data.head? ≠ some '/')
    (hseg : ∀ sg ∈ splitOnSlash (a ++ "/" ++ b).data, sg ≠ [] ∧ sg ≠ ['.'] ∧ sg ≠ ['.', '.']) :
    goPathJoin a b = a ++ "/" ++ b := by
  unfold goPathJoin
  rw [if_neg (by simp [ha]), if_neg ha]
  apply goClean_of_normal _ ?_ ?_ hseg
  · intro hc
    have hd : (a ++ "/" ++ b).data = [] := by rw [hc]
    rw [String.data_append, String.data_append] at hd
    rcases List.append_eq_nil.mp hd with ⟨hd1, hd2⟩
    rcases List.append_eq_nil.mp hd1 with ⟨hda, hds⟩
    cases hds
  · cases hA : a.data with
    | nil => exact absurd (String.ext hA) ha
    | cons c t =>
      have hc : (a ++ "/" ++ b).data.head? = some c := by
        apply head?_data_append_of_head
        apply head?_data_append_of_head
        rw [hA]
        rfl
      intro hcon
      have hcc : c = '/' := Option.some.inj (hc.symm.trans hcon)
      exact hh (by rw [hA, hcc]; rfl)

/-- A separator that does not occur leaves `takeUntilSeq` the
identity. -/
theorem takeUntilSeq_of_not_contains (sep cs : List Char) (h : containsSeq sep cs = false) :
    takeUntilSeq sep cs = cs := by
  induction cs with
  | nil => rfl
  | cons c rest ih =>
    unfold containsSeq at h
    rw [Bool.or_eq_false_iff] at h
    unfold takeUntilSeq
    rw [if_neg (by simp [h.1])]
    rw [ih h.2]

/-- Element 1 of the Go split of `pre ++ S` on `pre` is `S` when `pre`
does not occur inside `S`. -/
theorem splitSecond_of_leading (pre S : String) (h : containsSeq pre.data S.data = false) :
    splitSecond pre (pre ++ S) = S := by
  apply String.ext
  show takeUntilSeq pre.data ((pre ++ S).data.drop pre.data.length) = S.data
  rw [String.data_append, List.drop_left]
  exact takeUntilSeq_of_not_contains pre.data S.data h

/-- Counterexample for C2: with the raw image name `docker://` (class
prefix present, empty remainder) and a declared repository whose URL
host is `myregistry.org`, the code resolves the image to
`docker://myregistry.org` — Go `path.Join` drops the empty component and
produces no trailing slash — while the claimed formula
`prefix + host + "/" + pathAfterPrefix` yields the different string
`docker://myregistry.org/`. -/
theorem buildImageURI_counterexample :
    buildImageURI envRepo siRepoRoot "docker://" =
      .ok { siRepoRoot with imageURI := "docker://myregistry.org" }
  ∧ ("docker://myregistry.org" : String) ≠ "docker://" ++ "myregistry.org" ++ "/" ++ "" := by
  exact ⟨by decide, by decide⟩

/-- C2 (amended): for a raw image name carrying a recognized class
prefix, resolution keeps the raw name unchanged when no repository name
is declared, and likewise when the declared repository's URL is empty or
equals either public registry default; otherwise the URL's host is
joined with the portion of the raw name after the prefix by Go path
joining, which equals `prefix + host + "/" + pathAfterPrefix` whenever
the prefix occurs only at the front of the raw name and
`host/pathAfterPrefix` is an already-normal relative path (no empty,
`.` or `..` segments, host non-empty and not beginning with a slash);
in general Go path joining first normalizes the joined path, as the
counterexample `docker://` shows. -/
theorem buildImageURI_resolution (env : ExecEnv) (si : SingularityInfo) (pre : String) :
    (env.getOperationImplementationRepository = .ok "" →
      buildImageURI env si pre = .ok { si with imageURI := si.imageName })
  ∧ (∀ r u, env.getOperationImplementationRepository = .ok r → r ≠ "" →
      env.getRepositoryURLFromName r = .ok u →
      (u = "" ∨ u = DockerHubURL ∨ u = SingularityHubURL) →
      buildImageURI env si pre = .ok { si with imageURI := si.imageName })
  ∧ (∀ r u H S, env.getOperationImplementationRepository = .ok r → r ≠ "" →
      env.getRepositoryURLFromName r = .ok u →
      u ≠ "" → u ≠ DockerHubURL → u ≠ SingularityHubURL →
      urlParseHost u = .ok H →
      si.imageName = pre ++ S →
      containsSeq pre.data S.data = false →
      H ≠ "" → H.data.head? ≠ some '/' →
      (∀ sg ∈ splitOnSlash (H ++ "/" ++ S).data, sg ≠ [] ∧ sg ≠ ['.'] ∧ sg ≠ ['.', '.']) →
      buildImageURI env si pre = .ok { si with imageURI := pre ++ (H ++ "/" ++ S) }) := by
  refine ⟨fun h0 => ?_, fun r u hr hrne hu hdef => ?_,
    fun r u H S hr hrne hu hune hud hus hH hname hnc hHne hHh hseg => ?_⟩
  · simp [buildImageURI, h0]
  · rcases hdef with h | h | h <;> subst h <;>
      simp [buildImageURI, hr, hu, hrne, DockerHubURL, SingularityHubURL]
  · simp only [buildImageURI]
    rw [hr]
    try simp only
    rw [if_neg hrne]
    rw [hu]
    try simp only
    rw [if_neg (not_or.mpr ⟨hud, hus⟩)]
    rw [if_pos hune]
    rw [hH]
    try simp only
    rw [hname, splitSecond_of_leading pre S hnc]
    rw [goPathJoin_of_normal H S hHne hHh hseg]

/-- Witness for C2 (amended): the raw name `docker://busybox` with
declared repository URL `https://myregistry.org` resolves to
`docker://myregistry.org/busybox`. -/
theorem buildImageURI_resolution_witness :
    buildImageURI envRepo siBusy "docker://" =
      .ok { siBusy with imageURI := "docker://myregistry.org/busybox" } :=
  (buildImageURI_resolution envRepo siBusy "docker://").2.2 "myrepo" "https://myregistry.org"
    "myregistry.org" "busybox" (by decide) (by decide) (by decide) (by decide) (by decide)
    (by decide) (by decide) (by decide) (by decide) (by decide) (by decide) (by decide)

end YorcSlurm
